import Mathlib

set_option maxHeartbeats 1000000

/-!
Shallow embedding of the peer-registry core of the `seven` signaling server
(`main.go`): the `Entry`/`EntryForm` data model, the `uuid` text codec used at
the registration boundary, the fixed-capacity LRU store (hashicorp golang-lru,
capacity 1024, keyed by the raw uuid text), the bounded-retry random sampler
(`genGoodRandom` / `pickSome`) and the registration operation (`registerJSON`).

The pseudo-random source `rand.Intn` is modelled by an explicit stream
`r : Nat → Nat` together with a cursor: the `i`-th draw in `[0, max)` is
`r i % max`, and a call with `max = 0` is a panic, modelled as `none`.
All partial operations (array indexing, `rand.Intn`) return `Option`, with
`none` playing the role of a Go runtime panic.
-/

namespace Seven

/-- Hex value of one character, mirroring the `xvalues` table of the
google/uuid package: `0`-`9`, `a`-`f` and `A`-`F` decode, all other
characters are invalid. -/
def xvalue (c : Char) : Option Nat :=
  if '0' ≤ c ∧ c ≤ '9' then some (c.toNat - '0'.toNat)
  else if 'a' ≤ c ∧ c ≤ 'f' then some (c.toNat - 'a'.toNat + 10)
  else if 'A' ≤ c ∧ c ≤ 'F' then some (c.toNat - 'A'.toNat + 10)
  else none

/-- Decode two hex characters into one byte (`xtob` of the google/uuid
package); `b1 <\x7b\x7d< 4 | b2` is `b1 * 16 + b2` since both nibbles are below 16. -/
def xtob (x1 x2 : Char) : Option Nat := do
  let b1 ← xvalue x1
  let b2 ← xvalue x2
  pure (b1 * 16 + b2)

/-- Decode the hex pair of `cs` that starts at position `x` (`xtob(s[x], s[x+1])`
in the Go code; the callers have already established that both positions are
in range, so the `' '` fallback of `getD` is never produced). -/
def pairAt (cs : List Char) (x : Nat) : Option Nat :=
  xtob (cs.getD x ' ') (cs.getD (x + 1) ' ')

/-- Decode the hex pairs of `cs` that start at the given positions, in order. -/
def pairsAt (cs : List Char) : List Nat → Option (List Nat)
  | [] => some []
  | x :: xs => do
    let b ← pairAt cs x
    let bs ← pairsAt cs xs
    pure (b :: bs)

/-- Parse the 36-character canonical form `xxxxxxxx-xxxx-xxxx-xxxx-xxxxxxxxxxxx`
into 16 bytes: hyphens at positions 8, 13, 18 and 23, hex pairs at the
positions listed in `uuid.Parse`. Only the first 36 characters of the list are
inspected (exactly as the Go code, which never looks past index 35). -/
def parseCanonical (cs : List Char) : Option (List Nat) :=
  if cs.getD 8 ' ' = '-' ∧ cs.getD 13 ' ' = '-' ∧ cs.getD 18 ' ' = '-' ∧ cs.getD 23 ' ' = '-' then
    pairsAt cs [0, 2, 4, 6, 9, 11, 14, 16, 19, 21, 24, 26, 28, 30, 32, 34]
  else none

/-- Parse the 32-character no-hyphen form: 16 consecutive hex pairs, one for
each byte `i` at position `i * 2`. -/
def parse32 (cs : List Char) : Option (List Nat) :=
  pairsAt cs [0, 2, 4, 6, 8, 10, 12, 14, 16, 18, 20, 22, 24, 26, 28, 30]

/-- Model of `uuid.Parse` from the google/uuid package, dispatching on the
length of the text: canonical 36 characters; 45 characters with a
case-insensitive `urn:uuid:` lead (Go uses `strings.EqualFold`, modelled here
by ASCII lowercasing); 38 characters where the first character (a brace) is
skipped unchecked and only the next 36 are parsed, Go never checks the 38th;
32 characters of raw hex; every other length fails. The result is the list of
16 bytes of the uuid. -/
def uuidParse (s : String) : Option (List Nat) :=
  let cs := s.data
  if cs.length = 36 then parseCanonical cs
  else if cs.length = 45 then
    if (cs.take 9).map Char.toLower = "urn:uuid:".data then parseCanonical (cs.drop 9)
    else none
  else if cs.length = 38 then parseCanonical (cs.drop 1)
  else if cs.length = 32 then parse32 cs
  else none

/-- Lowercase hex digit character, as in `encoding/hex`. -/
def hexDigit (d : Nat) : Char :=
  "0123456789abcdef".data.getD d '0'

/-- Two lowercase hex characters of one byte (`hex.Encode` of one byte);
`b >> 4` equals `b / 16` on a byte. -/
def byteHex (b : Nat) : List Char :=
  [hexDigit (b / 16), hexDigit (b % 16)]

/-- The hex pair of byte `i` of a byte list. -/
def byteAt (bs : List Nat) (i : Nat) : List Char :=
  byteHex (bs.getD i 0)

/-- Model of `uuid.UUID.String()`: groups of 4, 2, 2, 2 and 6 bytes in
lowercase hex, joined by hyphens. `uuid.UUID` is a 16-byte array, so byte `i`
is read positionally; the program only ever applies this to the 16-byte lists
produced by `uuidParse`. -/
def uuidString (bs : List Nat) : String :=
  String.mk (byteAt bs 0 ++ byteAt bs 1 ++ byteAt bs 2 ++ byteAt bs 3 ++ '-' ::
    (byteAt bs 4 ++ byteAt bs 5 ++ '-' :: (byteAt bs 6 ++ byteAt bs 7 ++ '-' ::
    (byteAt bs 8 ++ byteAt bs 9 ++ '-' :: (byteAt bs 10 ++ byteAt bs 11 ++ byteAt bs 12 ++
      byteAt bs 13 ++ byteAt bs 14 ++ byteAt bs 15)))))

/-- `Entry` of main.go: the stored peer record. The 128-bit `uuid.UUID` is its
list of 16 bytes; `time.Time` is an abstract tick count. -/
structure Entry where
  uuid : List Nat
  address : String
  lastSeen : Nat
deriving DecidableEq, Repr, Inhabited

/-- `EntryForm` of main.go: the public wire representation, exactly two string
fields (`uuid` and `addr`). -/
structure EntryForm where
  Uuid : String
  Address : String
deriving DecidableEq, Repr, Inhabited

/-- `Entry.ToEntryJson` of main.go: the public form keeps the canonical uuid
string and the address, and drops `lastSeen`. -/
def Entry.ToEntryJson (e : Entry) : EntryForm :=
  { Uuid := uuidString e.uuid, Address := e.address }

/-- The LRU store contents, ordered from least recently used (head) to most
recently used (last) — the order `Values()` of hashicorp golang-lru returns. -/
abbrev Store := List (String × Entry)

/-- `cache.Values()`: the stored entries, oldest first. -/
def storeValues (s : Store) : List Entry := s.map Prod.snd

/-- The keys of the store, oldest first. -/
def storeKeys (s : Store) : List String := s.map Prod.fst

/-- `cache.Add` of hashicorp golang-lru: an existing key is moved to the
most-recently-used end with its value replaced; a new key is appended and, if
the store then exceeds its capacity, the oldest element (head) is evicted. -/
def lruAdd (cap : Nat) (s : Store) (k : String) (v : Entry) : Store :=
  if k ∈ storeKeys s then
    s.filter (fun p => p.1 ≠ k) ++ [(k, v)]
  else if s.length + 1 > cap then (s ++ [(k, v)]).drop 1
  else s ++ [(k, v)]

/-- `rand.Intn`: the `i`-th draw of the stream, uniform over `[0, max)`;
`max = 0` panics (`none`). -/
def randIntn (r : Nat → Nat) (i max : Nat) : Option Nat :=
  if max = 0 then none else some (r i % max)

/-- The retry loop body of `genGoodRandom`, with the remaining `maxTries` as
fuel: draw an index; a draw outside `bad` is returned at once, a colliding
draw consumes one try; with no tries left the result is `-1`. The second
component is the stream cursor after the call. -/
def genGoodRandomAux (r : Nat → Nat) (max : Nat) : Nat → List Nat → Nat → Option (Int × Nat)
  | 0, _, i => some (-1, i)
  | fuel + 1, bad, i =>
    match randIntn r i max with
    | none => none
    | some p => if p ∈ bad then genGoodRandomAux r max fuel bad (i + 1) else some ((p : Int), i + 1)

/-- `genGoodRandom` of main.go: up to `maxTries = 5` attempts to draw an index
in `[0, max)` that is not in `bad`; `-1` when all five draws collide. -/
def genGoodRandom (r : Nat → Nat) (max : Nat) (bad : List Nat) (i : Nat) : Option (Int × Nat) :=
  genGoodRandomAux r max 5 bad i

/-- The `for amount > 0` loop of `pickSome`, with `amount` as fuel: each
iteration asks `genGoodRandom` for a fresh index, stops the whole loop on
`-1`, otherwise marks the index bad and appends the public form of the entry
at that index. A negative index other than `-1` or an out-of-range index
would panic (`none`). -/
def pickSomeAux (r : Nat → Nat) (values : List Entry) : Nat → List Nat → Nat → Option (List EntryForm)
  | 0, _, _ => some []
  | amt + 1, bad, i =>
    match genGoodRandom r values.length bad i with
    | none => none
    | some (idx, i2) =>
      if idx = -1 then some []
      else if idx < 0 then none
      else
        match values[idx.toNat]? with
        | none => none
        | some e =>
          match pickSomeAux r values amt (idx.toNat :: bad) i2 with
          | none => none
          | some rest => some (e.ToEntryJson :: rest)

/-- `pickSome` of main.go: empty candidates give the empty result before any
drawing; otherwise the loop runs at most `amount` times (an `amount ≤ 0`
never enters the loop, hence `Int.toNat`). -/
def pickSome (r : Nat → Nat) (values : List Entry) (amount : Int) : Option (List EntryForm) :=
  if values.length = 0 then some []
  else pickSomeAux r values amount.toNat [] 0

/-- The result of one `registerJSON` call: the Go pair `([]EntryForm, error)`
plus the store as it stands after the call. -/
structure RegOut where
  entries : List EntryForm
  err : Option String
  store : Store
deriving DecidableEq, Repr

/-- The capacity the global `cache` is constructed with: `lru.New(1024)`. -/
def cacheCapacity : Nat := 1024

/-- `registerJSON` of main.go: validate the uuid text, reject an empty
address, sample 16 of the current values, then store the new entry under the
raw uuid text. Errors return the empty entry list and leave the store as it
was. -/
def registerJSON (store : Store) (r : Nat → Nat) (now : Nat) (json : EntryForm) : Option RegOut :=
  match uuidParse json.Uuid with
  | none => some ⟨[], some "Error converting uuid string ot actual uuid", store⟩
  | some u =>
    if json.Address.length < 1 then some ⟨[], some "Address was empty", store⟩
    else
      match pickSome r (storeValues store) 16 with
      | none => none
      | some entries =>
        some ⟨entries, none, lruAdd cacheCapacity store json.Uuid ⟨u, json.Address, now⟩⟩

/-- One registration request: the submitted form, the random stream the call
consumes, and the wall-clock instant of the call. -/
structure RegCall where
  json : EntryForm
  rand : Nat → Nat
  now : Nat

/-- The store after one registration call (a panicking call, which never
happens, would leave the store as is). -/
def regStep (s : Store) (c : RegCall) : Store :=
  match registerJSON s c.rand c.now c.json with
  | none => s
  | some o => o.store

/-- Run a sequence of registration calls against a starting store, keeping
the store of each call for the next. -/
def runRegsFrom (store : Store) (calls : List RegCall) : Store :=
  calls.foldl regStep store

/-- Run a sequence of registration calls against the freshly constructed
empty cache. -/
def runRegs (calls : List RegCall) : Store := runRegsFrom [] calls

/-! ### Helper lemmas about the sampler -/

/-- With a nonzero population the retry loop never panics: it yields either
`-1` or a fresh index below `max`, advancing the cursor by at least one draw
per consumed try and by at most `fuel` draws in total. -/
theorem genGoodRandomAux_spec (r : Nat → Nat) (max : Nat) (hmax : max ≠ 0) :
    ∀ (fuel : Nat) (bad : List Nat) (i : Nat),
      ∃ p i2, genGoodRandomAux r max fuel bad i = some (p, i2) ∧ i ≤ i2 ∧ i2 ≤ i + fuel ∧
        (p = -1 ∨ ∃ n : Nat, p = (n : Int) ∧ n < max ∧ n ∉ bad) := by
  intro fuel
  induction fuel with
  | zero =>
    intro bad i
    exact ⟨-1, i, rfl, Nat.le_refl i, Nat.le_add_right i 0, Or.inl rfl⟩
  | succ fuel ih =>
    intro bad i
    have hdraw : randIntn r i max = some (r i % max) := by
      simp [randIntn, hmax]
    by_cases hbad : r i % max ∈ bad
    · obtain ⟨p, i2, heq, hle, hub, hshape⟩ := ih bad (i + 1)
      refine ⟨p, i2, ?_, by omega, by omega, hshape⟩
      simp [genGoodRandomAux, hdraw, hbad, heq]
    · refine ⟨((r i % max : Nat) : Int), i + 1, ?_, by omega, by omega, ?_⟩
      · simp [genGoodRandomAux, hdraw, hbad]
      · exact Or.inr ⟨r i % max, rfl, Nat.mod_lt _ (Nat.pos_of_ne_zero hmax), hbad⟩

/-- The same facts for `genGoodRandom` itself, whose budget is five draws. -/
theorem genGoodRandom_spec (r : Nat → Nat) (max : Nat) (hmax : max ≠ 0)
    (bad : List Nat) (i : Nat) :
    ∃ p i2, genGoodRandom r max bad i = some (p, i2) ∧ i ≤ i2 ∧ i2 ≤ i + 5 ∧
      (p = -1 ∨ ∃ n : Nat, p = (n : Int) ∧ n < max ∧ n ∉ bad) :=
  genGoodRandomAux_spec r max hmax 5 bad i

/-- Characterization of the sampling loop on a nonempty candidate list: it
never panics, and the collected forms are exactly the public forms of the
entries at some list of distinct in-range indices avoiding `bad`, at most one
index per remaining iteration. -/
theorem pickSomeAux_spec (r : Nat → Nat) (values : List Entry) (hv : values.length ≠ 0) :
    ∀ (amt : Nat) (bad : List Nat) (i : Nat),
      ∃ (picked : List EntryForm) (idxs : List Nat),
        pickSomeAux r values amt bad i = some picked ∧
        idxs.Nodup ∧ (∀ j ∈ idxs, j < values.length ∧ j ∉ bad) ∧
        picked = idxs.map (fun j => (values.getD j default).ToEntryJson) ∧
        idxs.length ≤ amt := by
  intro amt
  induction amt with
  | zero =>
    intro bad i
    exact ⟨[], [], rfl, List.nodup_nil, by simp, rfl, Nat.le_refl 0⟩
  | succ amt ih =>
    intro bad i
    obtain ⟨p, i2, heq, _, _, hshape⟩ := genGoodRandom_spec r values.length hv bad i
    rcases hshape with hneg | ⟨n, hp, hn, hnbad⟩
    · subst hneg
      refine ⟨[], [], ?_, List.nodup_nil, by simp, rfl, by simp⟩
      simp [pickSomeAux, heq]
    · subst hp
      have hne : ((n : Int)) ≠ -1 := by omega
      have hnneg : ¬ ((n : Int) < 0) := by omega
      have hget : values[n]? = some values[n] := List.getElem?_eq_getElem hn
      obtain ⟨rest, idxs, hrec, hnodup, hbounds, hmap, hlen⟩ := ih (n :: bad) i2
      refine ⟨values[n].ToEntryJson :: rest, n :: idxs, ?_, ?_, ?_, ?_, by
        simpa using Nat.succ_le_succ hlen⟩
      · simp only [pickSomeAux, heq, if_neg hne, if_neg hnneg, Int.toNat_ofNat, hget, hrec]
      · refine List.nodup_cons.mpr ⟨fun hmem => ?_, hnodup⟩
        exact ((hbounds n hmem).2) (List.mem_cons_self n bad)
      · intro j hj
        rcases List.mem_cons.mp hj with rfl | hj
        · exact ⟨hn, hnbad⟩
        · obtain ⟨hj1, hj2⟩ := hbounds j hj
          exact ⟨hj1, fun hc => hj2 (List.mem_cons_of_mem n hc)⟩
      · have hgd : values.getD n default = values[n] := List.getD_eq_getElem values default hn
        simp [hmap, hgd, hget]

/-- Characterization of `pickSome` on every input: it never panics, and the
result is the list of public forms of the entries at some distinct in-range
indices, at most `amount` many (none when `amount ≤ 0` or the list is empty). -/
theorem pickSome_spec (r : Nat → Nat) (values : List Entry) (amount : Int) :
    ∃ (picked : List EntryForm) (idxs : List Nat),
      pickSome r values amount = some picked ∧
      idxs.Nodup ∧ (∀ j ∈ idxs, j < values.length) ∧
      picked = idxs.map (fun j => (values.getD j default).ToEntryJson) ∧
      idxs.length ≤ amount.toNat := by
  by_cases hv : values.length = 0
  · exact ⟨[], [], by simp [pickSome, hv], List.nodup_nil, by simp, rfl, by simp⟩
  · obtain ⟨picked, idxs, heq, hnodup, hbounds, hmap, hlen⟩ :=
      pickSomeAux_spec r values hv amount.toNat [] 0
    exact ⟨picked, idxs, by simp [pickSome, hv, heq], hnodup,
      fun j hj => (hbounds j hj).1, hmap, hlen⟩

/-- A list of distinct indices below `N` has at most `N` elements. -/
theorem nodup_bounded_length_le (idxs : List Nat) (N : Nat) (hnodup : idxs.Nodup)
    (hb : ∀ j ∈ idxs, j < N) : idxs.length ≤ N := by
  have hsub : idxs ⊆ List.range N := fun j hj => List.mem_range.mpr (hb j hj)
  have := (List.subperm_of_subset hnodup hsub).length_le
  simpa using this

/-! ### Helper lemmas about the store -/

/-- Removing the pairs with key `k` from a store that contains `k` makes it
strictly shorter. -/
theorem length_filter_key_lt (s : Store) (k : String) (hk : k ∈ storeKeys s) :
    (s.filter (fun p => p.1 ≠ k)).length < s.length := by
  obtain ⟨p, hp, hpk⟩ := List.mem_map.mp hk
  refine List.length_filter_lt_length_iff_exists.mpr ⟨p, hp, ?_⟩
  simp [hpk]

/-- `Add` keeps the store within its capacity. -/
theorem lruAdd_length_le (cap : Nat) (s : Store) (k : String) (v : Entry)
    (h : s.length ≤ cap) : (lruAdd cap s k v).length ≤ cap := by
  unfold lruAdd
  by_cases hk : k ∈ storeKeys s
  · have := length_filter_key_lt s k hk
    simp only [hk, if_pos]
    simp only [List.length_append, List.length_cons, List.length_nil]
    omega
  · simp only [hk, if_neg, if_false]
    by_cases hfull : s.length + 1 > cap
    · simpa [hfull] using h
    · simp [hfull]
      omega

/-- `Add` keeps the keys of the store distinct. -/
theorem lruAdd_keys_nodup (cap : Nat) (s : Store) (k : String) (v : Entry)
    (h : (storeKeys s).Nodup) : (storeKeys (lruAdd cap s k v)).Nodup := by
  unfold lruAdd
  by_cases hk : k ∈ storeKeys s
  · simp only [hk, if_pos]
    rw [storeKeys, List.map_append]
    refine List.Nodup.append ?_ (by simp) ?_
    · exact h.sublist ((List.filter_sublist s).map Prod.fst)
    · intro x hx hx2
      simp only [List.map_cons, List.map_nil, List.mem_singleton] at hx2
      subst hx2
      obtain ⟨p, hp, hpk⟩ := List.mem_map.mp hx
      have := List.of_mem_filter hp
      simp [hpk] at this
  · simp only [hk, if_neg, if_false]
    have hbase : (storeKeys (s ++ [(k, v)])).Nodup := by
      rw [storeKeys, List.map_append]
      refine List.Nodup.append h (by simp) ?_
      intro x hx hx2
      simp only [List.map_cons, List.map_nil, List.mem_singleton] at hx2
      subst hx2
      exact hk hx
    by_cases hfull : s.length + 1 > cap
    · simp only [hfull, if_pos]
      exact hbase.sublist ((List.drop_sublist 1 _).map Prod.fst)
    · simpa [hfull] using hbase

/-! ### Helper lemmas about registerJSON -/

/-- A uuid text that does not parse yields the malformed-identity error and
returns the store untouched. -/
theorem registerJSON_parse_err (store : Store) (r : Nat → Nat) (now : Nat) (json : EntryForm)
    (h : uuidParse json.Uuid = none) :
    registerJSON store r now json =
      some ⟨[], some "Error converting uuid string ot actual uuid", store⟩ := by
  simp [registerJSON, h]

/-- A valid uuid text with an empty address yields the empty-address error and
returns the store untouched. -/
theorem registerJSON_addr_err (store : Store) (r : Nat → Nat) (now : Nat) (json : EntryForm)
    (u : List Nat) (h : uuidParse json.Uuid = some u) (ha : json.Address.length < 1) :
    registerJSON store r now json = some ⟨[], some "Address was empty", store⟩ := by
  simp [registerJSON, h, ha]

/-- A valid registration returns the sample drawn from the pre-insertion
values, no error, and the store with the new entry added under the raw
uuid text. -/
theorem registerJSON_ok (store : Store) (r : Nat → Nat) (now : Nat) (json : EntryForm)
    (u : List Nat) (h : uuidParse json.Uuid = some u) (ha : 1 ≤ json.Address.length) :
    ∃ entries, pickSome r (storeValues store) 16 = some entries ∧
      registerJSON store r now json =
        some ⟨entries, none, lruAdd cacheCapacity store json.Uuid ⟨u, json.Address, now⟩⟩ := by
  obtain ⟨picked, idxs, hpick, -⟩ := pickSome_spec r (storeValues store) 16
  refine ⟨picked, hpick, ?_⟩
  have ha2 : ¬ json.Address.length < 1 := by omega
  simp [registerJSON, h, ha2, hpick]

/-- `registerJSON` never panics. -/
theorem registerJSON_total (store : Store) (r : Nat → Nat) (now : Nat) (json : EntryForm) :
    ∃ o, registerJSON store r now json = some o := by
  match h : uuidParse json.Uuid with
  | none => exact ⟨_, registerJSON_parse_err store r now json h⟩
  | some u =>
    by_cases ha : json.Address.length < 1
    · exact ⟨_, registerJSON_addr_err store r now json u h ha⟩
    · obtain ⟨entries, -, heq⟩ := registerJSON_ok store r now json u h (by omega)
      exact ⟨_, heq⟩

/-- The store after a call is either untouched (error) or the result of the
single `Add` of the parsed entry. -/
theorem regStep_store (s : Store) (c : RegCall) :
    regStep s c = s ∨ ∃ u, uuidParse c.json.Uuid = some u ∧
      regStep s c = lruAdd cacheCapacity s c.json.Uuid ⟨u, c.json.Address, c.now⟩ := by
  match h : uuidParse c.json.Uuid with
  | none =>
    left
    simp [regStep, registerJSON_parse_err s c.rand c.now c.json h]
  | some u =>
    by_cases ha : c.json.Address.length < 1
    · left
      simp [regStep, registerJSON_addr_err s c.rand c.now c.json u h ha]
    · right
      obtain ⟨entries, -, heq⟩ := registerJSON_ok s c.rand c.now c.json u h (by omega)
      exact ⟨u, rfl, by simp [regStep, heq]⟩

/-- One step keeps the store within capacity. -/
theorem regStep_length_le (s : Store) (c : RegCall) (h : s.length ≤ cacheCapacity) :
    (regStep s c).length ≤ cacheCapacity := by
  rcases regStep_store s c with heq | ⟨u, -, heq⟩
  · rw [heq]; exact h
  · rw [heq]; exact lruAdd_length_le cacheCapacity s c.json.Uuid _ h

/-- One step keeps the keys of the store distinct. -/
theorem regStep_keys_nodup (s : Store) (c : RegCall) (h : (storeKeys s).Nodup) :
    (storeKeys (regStep s c)).Nodup := by
  rcases regStep_store s c with heq | ⟨u, -, heq⟩
  · rw [heq]; exact h
  · rw [heq]; exact lruAdd_keys_nodup cacheCapacity s c.json.Uuid _ h

/-- Any run from a within-capacity store stays within capacity. -/
theorem runRegsFrom_length_le (calls : List RegCall) :
    ∀ store : Store, store.length ≤ cacheCapacity →
      (runRegsFrom store calls).length ≤ cacheCapacity := by
  induction calls with
  | nil => intro store h; exact h
  | cons c cs ih =>
    intro store h
    exact ih (regStep store c) (regStep_length_le store c h)

/-- Any run from a distinct-keys store keeps keys distinct. -/
theorem runRegsFrom_keys_nodup (calls : List RegCall) :
    ∀ store : Store, (storeKeys store).Nodup →
      (storeKeys (runRegsFrom store calls)).Nodup := by
  induction calls with
  | nil => intro store h; exact h
  | cons c cs ih =>
    intro store h
    exact ih (regStep store c) (regStep_keys_nodup store c h)

/-! ### Eviction order under distinct fresh registrations -/

/-- The store pair a valid registration call inserts: the raw uuid text as
key, the parsed uuid bytes, the address and the instant of the call. -/
def entryPair (c : RegCall) : String × Entry :=
  (c.json.Uuid, ⟨(uuidParse c.json.Uuid).getD [], c.json.Address, c.now⟩)

/-- A registration call that parses and has a non-empty address. -/
def validCall (c : RegCall) : Prop :=
  (uuidParse c.json.Uuid).isSome ∧ 1 ≤ c.json.Address.length

/-- One valid call whose key is fresh performs exactly the append-and-evict
step of the LRU on a within-capacity store. -/
theorem regStep_new_key (s : Store) (c : RegCall) (hv : validCall c)
    (hk : c.json.Uuid ∉ storeKeys s) :
    regStep s c = if s.length + 1 > cacheCapacity
      then (s ++ [entryPair c]).drop 1 else s ++ [entryPair c] := by
  obtain ⟨hsome, haddr⟩ := hv
  obtain ⟨u, hu⟩ := Option.isSome_iff_exists.mp hsome
  obtain ⟨entries, -, heq⟩ := registerJSON_ok s c.rand c.now c.json u hu haddr
  have hstep : regStep s c = lruAdd cacheCapacity s c.json.Uuid ⟨u, c.json.Address, c.now⟩ := by
    simp [regStep, heq]
  rw [hstep, lruAdd, if_neg hk]
  have hpair : entryPair c = (c.json.Uuid, ⟨u, c.json.Address, c.now⟩) := by
    simp [entryPair, hu]
  rw [hpair]

/-- Dropping the head before appending is the same as dropping the head of
the concatenation, as long as the first part is nonempty. -/
theorem drop_one_append {α : Type} (l r : List α) (h : l ≠ []) :
    l.drop 1 ++ r = (l ++ r).drop 1 := by
  cases l with
  | nil => exact absurd rfl h
  | cons a l => simp

/-- Running a batch of valid calls whose keys are pairwise distinct and all
fresh for the starting store appends their entries in call order and drops
exactly the oldest overflow. -/
theorem runRegsFrom_all_new (calls : List RegCall) :
    ∀ store : Store, store.length ≤ cacheCapacity →
      (∀ c ∈ calls, validCall c) →
      (storeKeys store ++ calls.map (fun c => c.json.Uuid)).Nodup →
      runRegsFrom store calls =
        (store ++ calls.map entryPair).drop (store.length + calls.length - cacheCapacity) := by
  induction calls with
  | nil =>
    intro store hlen _ _
    have h0 : store.length + ([] : List RegCall).length - cacheCapacity = 0 := by
      simp only [List.length_nil]
      omega
    rw [h0]
    simp [runRegsFrom]
  | cons c cs ih =>
    intro store hlen hvalid hnodup
    simp only [List.map_cons] at hnodup
    have hfresh : c.json.Uuid ∉ storeKeys store := fun hmem =>
      List.disjoint_of_nodup_append hnodup hmem (List.mem_cons_self _ _)
    have hstep := regStep_new_key store c (hvalid c (List.mem_cons_self c cs)) hfresh
    have hrun : runRegsFrom store (c :: cs) = runRegsFrom (regStep store c) cs := rfl
    have hsk : storeKeys (store ++ [entryPair c]) = storeKeys store ++ [c.json.Uuid] := by
      simp [storeKeys, entryPair]
    have hvcs : ∀ x ∈ cs, validCall x := fun x hx => hvalid x (List.mem_cons_of_mem c hx)
    have hassoc : (storeKeys store ++ [c.json.Uuid]) ++ cs.map (fun x => x.json.Uuid) =
        storeKeys store ++ (c.json.Uuid :: cs.map (fun x => x.json.Uuid)) := by
      rw [List.append_assoc]
      rfl
    have hbignodup : ((storeKeys store ++ [c.json.Uuid]) ++
        cs.map (fun x => x.json.Uuid)).Nodup := by
      rw [hassoc]
      exact hnodup
    by_cases hfull : store.length + 1 > cacheCapacity
    · have hcap : store.length = cacheCapacity := by omega
      rw [hrun, hstep, if_pos hfull]
      have hlen2 : ((store ++ [entryPair c]).drop 1).length ≤ cacheCapacity := by
        rw [List.length_drop, List.length_append]
        simp only [List.length_cons, List.length_nil]
        omega
      have hsk2 : storeKeys ((store ++ [entryPair c]).drop 1) =
          (storeKeys store ++ [c.json.Uuid]).drop 1 := by
        rw [storeKeys, List.map_drop, ← storeKeys, hsk]
      have hnodup2 : (storeKeys ((store ++ [entryPair c]).drop 1) ++
          cs.map (fun x => x.json.Uuid)).Nodup := by
        rw [hsk2, drop_one_append _ _ (by simp)]
        exact hbignodup.sublist (List.drop_sublist 1 _)
      rw [ih _ hlen2 hvcs hnodup2]
      have hL1 : ((store ++ [entryPair c]).drop 1).length = store.length := by
        rw [List.length_drop, List.length_append]
        simp only [List.length_cons, List.length_nil]
        omega
      rw [hL1]
      rw [drop_one_append _ _ (by simp), List.drop_drop]
      have hshape : store ++ [entryPair c] ++ cs.map entryPair =
          store ++ (c :: cs).map entryPair := by
        rw [List.map_cons, List.append_assoc]
        rfl
      rw [hshape]
      have hidx : 1 + (store.length + cs.length - cacheCapacity) =
          store.length + (c :: cs).length - cacheCapacity := by
        rw [List.length_cons]
        omega
      rw [hidx]
    · rw [hrun, hstep, if_neg hfull]
      have hlen2 : (store ++ [entryPair c]).length ≤ cacheCapacity := by
        rw [List.length_append]
        simp only [List.length_cons, List.length_nil]
        omega
      have hnodup2 : (storeKeys (store ++ [entryPair c]) ++
          cs.map (fun x => x.json.Uuid)).Nodup := by
        rw [hsk]
        exact hbignodup
      rw [ih _ hlen2 hvcs hnodup2]
      have hshape : store ++ [entryPair c] ++ cs.map entryPair =
          store ++ (c :: cs).map entryPair := by
        rw [List.map_cons, List.append_assoc]
        rfl
      rw [hshape]
      have hidx : (store ++ [entryPair c]).length + cs.length - cacheCapacity =
          store.length + (c :: cs).length - cacheCapacity := by
        simp only [List.length_append, List.length_cons, List.length_nil]
        omega
      rw [hidx]

/-! ### Timestamp independence of the sampler -/

/-- The sampling loop depends on its candidates only through their public
forms: two candidate lists with the same public forms drive the loop to the
same result at every state. -/
theorem pickSomeAux_congr (r : Nat → Nat) (values values2 : List Entry)
    (h : values.map Entry.ToEntryJson = values2.map Entry.ToEntryJson) :
    ∀ (amt : Nat) (bad : List Nat) (i : Nat),
      pickSomeAux r values amt bad i = pickSomeAux r values2 amt bad i := by
  have hlen : values.length = values2.length := by
    have := congrArg List.length h
    simpa using this
  intro amt
  induction amt with
  | zero => intro bad i; rfl
  | succ amt ih =>
    intro bad i
    simp only [pickSomeAux, ← hlen]
    cases hg : genGoodRandom r values.length bad i with
    | none => rfl
    | some pi =>
      obtain ⟨idx, i2⟩ := pi
      by_cases hne : idx = -1
      · simp [hne]
      · by_cases hneg : idx < 0
        · simp [hne, hneg]
        · simp only [hne, if_neg, if_false, hneg]
          have hforms : ∀ n : Nat, (values[n]?).map Entry.ToEntryJson =
              (values2[n]?).map Entry.ToEntryJson := by
            intro n
            rw [← List.getElem?_map, ← List.getElem?_map, h]
          cases he : values[idx.toNat]? with
          | none =>
            have h2 : values2[idx.toNat]? = none := by
              have := hforms idx.toNat
              rw [he] at this
              cases h2 : values2[idx.toNat]? with
              | none => rfl
              | some e2 => rw [h2] at this; simp at this
            rw [h2]
          | some e =>
            have := hforms idx.toNat
            rw [he] at this
            cases h2 : values2[idx.toNat]? with
            | none => rw [h2] at this; simp at this
            | some e2 =>
              rw [h2] at this
              simp at this
              simp only [ih (idx.toNat :: bad) i2, this]

/-- `pickSome` depends on its candidates only through their public forms. -/
theorem pickSome_congr (r : Nat → Nat) (values values2 : List Entry) (amount : Int)
    (h : values.map Entry.ToEntryJson = values2.map Entry.ToEntryJson) :
    pickSome r values amount = pickSome r values2 amount := by
  have hlen : values.length = values2.length := by
    have := congrArg List.length h
    simpa using this
  rw [pickSome, pickSome, ← hlen]
  by_cases hv : values.length = 0
  · rw [if_pos hv, if_pos hv]
  · rw [if_neg hv, if_neg hv]
    exact pickSomeAux_congr r values values2 h amount.toNat [] 0

/-! ### Further helper lemmas -/

/-- Whatever the population, a non-panicking retry call advances the cursor
by at most `fuel` draws. -/
theorem genGoodRandomAux_cursor (r : Nat → Nat) (max : Nat) :
    ∀ (fuel : Nat) (bad : List Nat) (i : Nat) (p : Int) (i2 : Nat),
      genGoodRandomAux r max fuel bad i = some (p, i2) → i ≤ i2 ∧ i2 ≤ i + fuel := by
  intro fuel
  induction fuel with
  | zero =>
    intro bad i p i2 h
    simp only [genGoodRandomAux, Option.some.injEq, Prod.mk.injEq] at h
    omega
  | succ fuel ih =>
    intro bad i p i2 h
    cases hr : randIntn r i max with
    | none => simp [genGoodRandomAux, hr] at h
    | some q =>
      simp only [genGoodRandomAux, hr] at h
      by_cases hbad : q ∈ bad
      · rw [if_pos hbad] at h
        have := ih bad (i + 1) p i2 h
        omega
      · rw [if_neg hbad] at h
        simp only [Option.some.injEq, Prod.mk.injEq] at h
        omega

/-- A non-negative index returned by the retry loop is in range and fresh. -/
theorem genGoodRandomAux_ofNat (r : Nat → Nat) (max : Nat) :
    ∀ (fuel : Nat) (bad : List Nat) (i : Nat) (n : Nat) (i2 : Nat),
      genGoodRandomAux r max fuel bad i = some ((n : Int), i2) → n < max ∧ n ∉ bad := by
  intro fuel
  induction fuel with
  | zero =>
    intro bad i n i2 h
    simp only [genGoodRandomAux, Option.some.injEq, Prod.mk.injEq] at h
    omega
  | succ fuel ih =>
    intro bad i n i2 h
    by_cases hm : max = 0
    · simp [genGoodRandomAux, randIntn, hm] at h
    · have hr : randIntn r i max = some (r i % max) := by simp [randIntn, hm]
      simp only [genGoodRandomAux, hr] at h
      by_cases hbad : r i % max ∈ bad
      · rw [if_pos hbad] at h
        exact ih bad (i + 1) n i2 h
      · rw [if_neg hbad] at h
        simp only [Option.some.injEq, Prod.mk.injEq] at h
        have hq : r i % max = n := by omega
        subst hq
        exact ⟨Nat.mod_lt _ (Nat.pos_of_ne_zero hm), hbad⟩

/-- In a store with distinct keys that contains `k`, dropping the pairs keyed
`k` removes exactly one pair. -/
theorem filter_key_length (s : Store) (k : String) :
    (storeKeys s).Nodup → k ∈ storeKeys s →
    (s.filter (fun p => p.1 ≠ k)).length + 1 = s.length := by
  induction s with
  | nil => intro _ h; simp [storeKeys] at h
  | cons p ps ih =>
    intro hnd hk
    simp only [storeKeys, List.map_cons, List.nodup_cons] at hnd
    by_cases hpk : p.1 = k
    · simp [List.filter_cons, hpk]
      intro a b hab hak
      rw [hpk] at hnd
      exact hnd.1 (hak ▸ List.mem_map_of_mem Prod.fst hab)
    · have hk2 : k ∈ storeKeys ps := by
        simp only [storeKeys, List.map_cons, List.mem_cons] at hk
        rcases hk with h | h
        · exact absurd h.symm hpk
        · exact h
      have := ih hnd.2 hk2
      simp [List.filter_cons, hpk, ← this]

/-- Every sampled form is the public form of one of the candidates. -/
theorem pickSome_mem (r : Nat → Nat) (values : List Entry) (amount : Int)
    (picked : List EntryForm) (h : pickSome r values amount = some picked) :
    ∀ f ∈ picked, ∃ e ∈ values, f = e.ToEntryJson := by
  obtain ⟨picked2, idxs, heq, -, hb, hmap, -⟩ := pickSome_spec r values amount
  rw [h] at heq
  obtain rfl : picked = picked2 := by injection heq
  intro f hf
  rw [hmap] at hf
  obtain ⟨j, hj, hfe⟩ := List.mem_map.mp hf
  have hjb := hb j hj
  have hgd : values.getD j default = values[j] := List.getD_eq_getElem values default hjb
  exact ⟨values[j], List.getElem_mem hjb, by rw [← hfe, hgd]⟩

/-! ### Claim theorems -/

/-- C7: for every sequence of registrations starting from the empty store,
the store holds at most the construction capacity of 1024 entries after
every operation. -/
theorem C7_capacity_invariant (calls : List RegCall) :
    (runRegs calls).length ≤ 1024 :=
  runRegsFrom_length_le calls [] (Nat.zero_le cacheCapacity)

/-- C6: a registration whose identity text does not parse yields the
malformed-identity error, and one with a valid identity but empty address
yields the empty-address error; both return the store exactly as it was. -/
theorem C6_validation_errors (store : Store) (r : Nat → Nat) (now : Nat) (json : EntryForm) :
    (uuidParse json.Uuid = none →
      registerJSON store r now json =
        some ⟨[], some "Error converting uuid string ot actual uuid", store⟩) ∧
    (∀ u, uuidParse json.Uuid = some u → json.Address = "" →
      registerJSON store r now json = some ⟨[], some "Address was empty", store⟩) := by
  constructor
  · intro h
    exact registerJSON_parse_err store r now json h
  · intro u hu ha
    refine registerJSON_addr_err store r now json u hu ?_
    rw [ha]
    decide

/-- Witness for C6: the two error paths at concrete inputs. -/
theorem C6_validation_errors_witness :
    registerJSON [] (fun _ => 0) 0 ⟨"not-a-uuid", "addr1"⟩ =
      some ⟨[], some "Error converting uuid string ot actual uuid", []⟩ ∧
    registerJSON [] (fun _ => 0) 0 ⟨"00000000-0000-0000-0000-000000000000", ""⟩ =
      some ⟨[], some "Address was empty", []⟩ :=
  ⟨(C6_validation_errors [] (fun _ => 0) 0 ⟨"not-a-uuid", "addr1"⟩).1 (by decide),
   (C6_validation_errors [] (fun _ => 0) 0 ⟨"00000000-0000-0000-0000-000000000000", ""⟩).2
     (List.replicate 16 0) (by decide) rfl⟩

/-- C4: every pick advances the random cursor by at most five draws, and a
pick whose draws were all exhausted by collisions (`-1`) makes the whole
sampling loop stop at once with only what was collected, regardless of how
many picks remain. -/
theorem C4_retry_budget_abort :
    (∀ (r : Nat → Nat) (max : Nat) (bad : List Nat) (i : Nat) (p : Int) (i2 : Nat),
      genGoodRandom r max bad i = some (p, i2) → i ≤ i2 ∧ i2 ≤ i + 5) ∧
    (∀ (r : Nat → Nat) (values : List Entry) (amt : Nat) (bad : List Nat) (i i2 : Nat),
      genGoodRandom r values.length bad i = some (-1, i2) →
      pickSomeAux r values (amt + 1) bad i = some []) := by
  constructor
  · intro r max bad i p i2 h
    exact genGoodRandomAux_cursor r max 5 bad i p i2 h
  · intro r values amt bad i i2 h
    simp [pickSomeAux, h]

/-- Witness for C4: a concrete exhausted pick aborts a loop that still had
three picks to go. -/
theorem C4_retry_budget_abort_witness :
    ((0 : Nat) ≤ 5 ∧ (5 : Nat) ≤ 0 + 5) ∧
    pickSomeAux (fun _ => 0) [⟨List.replicate 16 0, "a", 0⟩] 4 [0] 0 = some [] :=
  ⟨C4_retry_budget_abort.1 (fun _ => 0) 1 [0] 0 (-1) 5 (by decide),
   C4_retry_budget_abort.2 (fun _ => 0) [⟨List.replicate 16 0, "a", 0⟩] 3 [0] 0 5 (by decide)⟩

/-- C9: the public representation keeps exactly the identity string and the
address: it is the same for entries differing only in `lastSeen`, and the
sampler output is unchanged when candidates are replaced by candidates with
the same public forms (in particular with different timestamps). -/
theorem C9_no_timestamp :
    (∀ (u : List Nat) (a : String) (t1 t2 : Nat),
      Entry.ToEntryJson ⟨u, a, t1⟩ = Entry.ToEntryJson ⟨u, a, t2⟩) ∧
    (∀ (r : Nat → Nat) (values values2 : List Entry) (amount : Int),
      values.map Entry.ToEntryJson = values2.map Entry.ToEntryJson →
      pickSome r values amount = pickSome r values2 amount) :=
  ⟨fun _ _ _ _ => rfl, fun r v v2 amount h => pickSome_congr r v v2 amount h⟩

/-- Witness for C9: two one-entry candidate lists that differ only in the
stored timestamp give the same sample. -/
theorem C9_no_timestamp_witness :
    pickSome (fun _ => 0) [⟨List.replicate 16 0, "a", 0⟩] 16 =
      pickSome (fun _ => 0) [⟨List.replicate 16 0, "a", 99⟩] 16 :=
  C9_no_timestamp.2 (fun _ => 0) [⟨List.replicate 16 0, "a", 0⟩]
    [⟨List.replicate 16 0, "a", 99⟩] 16 (by decide)

/-- C10: the sampler is total for every candidate list and every integer
count (the empty-list early return shields the random draw, so `rand.Intn`
is never called with a zero bound), and every non-negative index the retry
helper returns is strictly below the candidate count. -/
theorem C10_sampler_safe :
    (∀ (r : Nat → Nat) (values : List Entry) (amount : Int),
      ∃ picked, pickSome r values amount = some picked) ∧
    (∀ (r : Nat → Nat) (max : Nat) (bad : List Nat) (i : Nat) (n : Nat) (i2 : Nat),
      genGoodRandom r max bad i = some ((n : Int), i2) → n < max) := by
  constructor
  · intro r values amount
    obtain ⟨picked, idxs, heq, -⟩ := pickSome_spec r values amount
    exact ⟨picked, heq⟩
  · intro r max bad i n i2 h
    exact (genGoodRandomAux_ofNat r max 5 bad i n i2 h).1

/-- Witness for C10: a concrete successful draw lies below the bound. -/
theorem C10_sampler_safe_witness :
    genGoodRandom (fun _ => 0) 1 [] 0 = some ((0 : Int), 1) ∧ (0 : Nat) < 1 :=
  ⟨by decide, C10_sampler_safe.2 (fun _ => 0) 1 [] 0 0 1 (by decide)⟩

/-- C1 counterexample: re-registering an identity that is already stored
returns a sample containing exactly that identity (the pre-insertion snapshot
still holds the old entry), so the claim fails when the identity was already
present before the call. -/
theorem C1_counterexample :
    registerJSON (runRegs [⟨⟨"00000000-0000-0000-0000-000000000000", "a"⟩, fun _ => 0, 0⟩])
        (fun _ => 0) 5 ⟨"00000000-0000-0000-0000-000000000000", "b"⟩ =
      some ⟨[⟨"00000000-0000-0000-0000-000000000000", "a"⟩], none,
        [("00000000-0000-0000-0000-000000000000", ⟨List.replicate 16 0, "b", 5⟩)]⟩ ∧
    uuidParse "00000000-0000-0000-0000-000000000000" = some (List.replicate 16 0) ∧
    uuidString (List.replicate 16 0) = "00000000-0000-0000-0000-000000000000" := by
  decide

/-- C1 amended: a successful registration whose identity does not render to
the identity string of any entry already in the store (in particular, a
fresh identity) returns a sample that never contains the identity just
registered. -/
theorem C1_self_exclusion (store : Store) (r : Nat → Nat) (now : Nat) (json : EntryForm)
    (u : List Nat) (hu : uuidParse json.Uuid = some u) (ha : 1 ≤ json.Address.length)
    (habs : ∀ e ∈ storeValues store, uuidString e.uuid ≠ uuidString u) :
    ∃ entries store2, registerJSON store r now json = some ⟨entries, none, store2⟩ ∧
      ∀ f ∈ entries, f.Uuid ≠ uuidString u := by
  obtain ⟨entries, hpick, heq⟩ := registerJSON_ok store r now json u hu ha
  refine ⟨entries, _, heq, ?_⟩
  intro f hf
  obtain ⟨e, he, rfl⟩ := pickSome_mem r (storeValues store) 16 entries hpick f hf
  exact habs e he

/-- Witness for the amended C1: registering a fresh identity against a store
holding one other peer. -/
theorem C1_self_exclusion_witness :
    ∃ entries store2,
      registerJSON [("11111111-1111-1111-1111-111111111111", ⟨List.replicate 16 17, "a", 0⟩)]
          (fun _ => 0) 1 ⟨"00000000-0000-0000-0000-000000000000", "b"⟩ =
        some ⟨entries, none, store2⟩ ∧
      ∀ f ∈ entries, f.Uuid ≠ uuidString (List.replicate 16 0) :=
  C1_self_exclusion [("11111111-1111-1111-1111-111111111111", ⟨List.replicate 16 17, "a", 0⟩)]
    (fun _ => 0) 1 ⟨"00000000-0000-0000-0000-000000000000", "b"⟩ (List.replicate 16 0)
    (by decide) (by decide) (by decide)

/-- C2 counterexample: with five candidates and an adversarial random stream
that always draws index 0, the sample has length 1, not `min 16 5 = 5`: the
second pick exhausts its five retries on the already-chosen index and the
loop aborts. -/
theorem C2_counterexample :
    pickSome (fun _ => 0) [⟨List.replicate 16 0, "0", 0⟩, ⟨List.replicate 16 0, "1", 0⟩,
        ⟨List.replicate 16 0, "2", 0⟩, ⟨List.replicate 16 0, "3", 0⟩,
        ⟨List.replicate 16 0, "4", 0⟩] 16 =
      some [⟨"00000000-0000-0000-0000-000000000000", "0"⟩] ∧
    ([⟨List.replicate 16 0, "0", 0⟩, ⟨List.replicate 16 0, "1", 0⟩,
        ⟨List.replicate 16 0, "2", 0⟩, ⟨List.replicate 16 0, "3", 0⟩,
        ⟨List.replicate 16 0, "4", 0⟩] : List Entry).length = 5 ∧
    (1 : Nat) ≠ min 16 5 := by
  decide

/-- C2 amended: for `k = 16` the sample length is at most `min 16 N` (with
equality only when no pick exhausts its retry budget), and an empty
candidate list always gives the empty sample. -/
theorem C2_sample_bound (r : Nat → Nat) (values : List Entry) :
    ∃ picked, pickSome r values 16 = some picked ∧
      picked.length ≤ min 16 values.length ∧ (values.length = 0 → picked = []) := by
  obtain ⟨picked, idxs, heq, hnodup, hb, hmap, hlen⟩ := pickSome_spec r values 16
  have hplen : picked.length = idxs.length := by rw [hmap, List.length_map]
  have hN : idxs.length ≤ values.length := nodup_bounded_length_le idxs values.length hnodup hb
  refine ⟨picked, heq, ?_, ?_⟩
  · have h16 : (16 : Int).toNat = 16 := rfl
    refine le_min_iff.mpr ⟨by omega, by omega⟩
  · intro h0
    have hidxs : idxs = [] := by
      cases idxs with
      | nil => rfl
      | cons j js => exact absurd (hb j (List.mem_cons_self j js)) (by omega)
    rw [hmap, hidxs]
    rfl

/-- Witness for the amended C2: the empty candidate list. -/
theorem C2_sample_bound_witness :
    ∃ picked, pickSome (fun _ => 0) [] 16 = some picked ∧
      picked.length ≤ min 16 ([] : List Entry).length ∧
      (([] : List Entry).length = 0 → picked = []) :=
  C2_sample_bound (fun _ => 0) []

/-- C3 counterexample: the store is keyed by the raw identity text, and the
same 128-bit identity parses from both the canonical 36-character text and
the 32-character no-hyphen text, so a second registration carrying the same
identity under the other text creates a second entry instead of updating in
place. -/
theorem C3_counterexample :
    runRegs [⟨⟨"00000000-0000-0000-0000-000000000000", "a"⟩, fun _ => 0, 0⟩,
             ⟨⟨"00000000000000000000000000000000", "b"⟩, fun _ => 0, 1⟩] =
      [("00000000-0000-0000-0000-000000000000", ⟨List.replicate 16 0, "a", 0⟩),
       ("00000000000000000000000000000000", ⟨List.replicate 16 0, "b", 1⟩)] ∧
    uuidParse "00000000-0000-0000-0000-000000000000" =
      uuidParse "00000000000000000000000000000000" ∧
    "00000000-0000-0000-0000-000000000000" ≠ "00000000000000000000000000000000" := by
  decide

/-- C3 amended: each identity TEXT (the store key) is present at most once —
reachable stores have pairwise distinct keys — and a second registration
carrying the same identity text replaces that entry's address and timestamp
in place, leaving the store length unchanged. -/
theorem C3_text_dedup :
    (∀ calls : List RegCall, (storeKeys (runRegs calls)).Nodup) ∧
    (∀ (store : Store) (r : Nat → Nat) (now : Nat) (json : EntryForm) (u : List Nat),
      (storeKeys store).Nodup → json.Uuid ∈ storeKeys store →
      uuidParse json.Uuid = some u → 1 ≤ json.Address.length →
      ∃ entries, registerJSON store r now json = some ⟨entries, none,
          store.filter (fun p => p.1 ≠ json.Uuid) ++ [(json.Uuid, ⟨u, json.Address, now⟩)]⟩ ∧
        (store.filter (fun p : String × Entry => p.1 ≠ json.Uuid) ++
          ([(json.Uuid, ⟨u, json.Address, now⟩)] : Store)).length = store.length) := by
  constructor
  · intro calls
    exact runRegsFrom_keys_nodup calls [] List.nodup_nil
  · intro store r now json u hnd hk hu ha
    obtain ⟨entries, hpick, heq⟩ := registerJSON_ok store r now json u hu ha
    have hadd : lruAdd cacheCapacity store json.Uuid ⟨u, json.Address, now⟩ =
        store.filter (fun p => p.1 ≠ json.Uuid) ++ [(json.Uuid, ⟨u, json.Address, now⟩)] := by
      rw [lruAdd, if_pos hk]
    refine ⟨entries, by rw [heq, hadd], ?_⟩
    have := filter_key_length store json.Uuid hnd hk
    simp only [List.length_append, List.length_cons, List.length_nil]
    omega

/-- Witness for the amended C3: re-registering the same identity text against
a one-entry store replaces the entry and keeps the length at one. -/
theorem C3_text_dedup_witness :
    ∃ entries,
      registerJSON [("00000000-0000-0000-0000-000000000000", ⟨List.replicate 16 0, "a", 0⟩)]
          (fun _ => 0) 7 ⟨"00000000-0000-0000-0000-000000000000", "b"⟩ =
        some ⟨entries, none,
          (([("00000000-0000-0000-0000-000000000000",
              ⟨List.replicate 16 0, "a", 0⟩)] : Store).filter
            (fun p => p.1 ≠ "00000000-0000-0000-0000-000000000000")) ++
          [("00000000-0000-0000-0000-000000000000", ⟨List.replicate 16 0, "b", 7⟩)]⟩ ∧
      ((([("00000000-0000-0000-0000-000000000000",
            ⟨List.replicate 16 0, "a", 0⟩)] : Store).filter
          (fun p : String × Entry => p.1 ≠ "00000000-0000-0000-0000-000000000000")) ++
        ([("00000000-0000-0000-0000-000000000000",
            ⟨List.replicate 16 0, "b", 7⟩)] : Store)).length =
      ([("00000000-0000-0000-0000-000000000000",
          ⟨List.replicate 16 0, "a", 0⟩)] : Store).length :=
  C3_text_dedup.2 [("00000000-0000-0000-0000-000000000000", ⟨List.replicate 16 0, "a", 0⟩)]
    (fun _ => 0) 7 ⟨"00000000-0000-0000-0000-000000000000", "b"⟩ (List.replicate 16 0)
    (by decide) (by decide) (by decide) (by decide)

/-- C5 counterexample: when the candidate list itself holds two equal
entries, the sample can contain the same public form twice, so "no duplicate
entries for every candidate list" fails. -/
theorem C5_counterexample :
    pickSome (fun i => i) [⟨List.replicate 16 0, "a", 0⟩, ⟨List.replicate 16 0, "a", 0⟩] 16 =
      some [⟨"00000000-0000-0000-0000-000000000000", "a"⟩,
            ⟨"00000000-0000-0000-0000-000000000000", "a"⟩] ∧
    ¬ ([⟨"00000000-0000-0000-0000-000000000000", "a"⟩,
        ⟨"00000000-0000-0000-0000-000000000000", "a"⟩] : List EntryForm).Nodup := by
  decide

/-- C5 amended: the sample is an ordered sequence of at most `k` forms (so at
most 16 for the registration fan-out), each the public form of a candidate;
the picked indices are distinct, hence the sample has no duplicates whenever
the candidates' public forms are themselves distinct. -/
theorem C5_sample_shape (r : Nat → Nat) (values : List Entry) (k : Int) :
    ∃ picked, pickSome r values k = some picked ∧
      picked.length ≤ k.toNat ∧
      (∀ f ∈ picked, ∃ e ∈ values, f = e.ToEntryJson) ∧
      ((values.map Entry.ToEntryJson).Nodup → picked.Nodup) := by
  obtain ⟨picked, idxs, heq, hnodup, hb, hmap, hlen⟩ := pickSome_spec r values k
  refine ⟨picked, heq, ?_, pickSome_mem r values k picked heq, ?_⟩
  · rw [hmap, List.length_map]
    exact hlen
  · intro hforms
    rw [hmap]
    refine List.Nodup.map_on ?_ hnodup
    intro j hj j2 hj2 hfe
    have hjb := hb j hj
    have hj2b := hb j2 hj2
    have hjm : j < (values.map Entry.ToEntryJson).length := by simpa using hjb
    have hj2m : j2 < (values.map Entry.ToEntryJson).length := by simpa using hj2b
    have e1 : (values.getD j default).ToEntryJson =
        (values.map Entry.ToEntryJson).get ⟨j, hjm⟩ := by
      rw [List.getD_eq_getElem values default hjb, List.get_eq_getElem, List.getElem_map]
    have e2 : (values.getD j2 default).ToEntryJson =
        (values.map Entry.ToEntryJson).get ⟨j2, hj2m⟩ := by
      rw [List.getD_eq_getElem values default hj2b, List.get_eq_getElem, List.getElem_map]
    rw [e1, e2] at hfe
    have hfin := (List.Nodup.get_inj_iff hforms).mp hfe
    simpa using hfin

/-- Witness for the amended C5: one candidate, fan-out 16. -/
theorem C5_sample_shape_witness :
    ∃ picked, pickSome (fun _ => 0) [⟨List.replicate 16 0, "a", 0⟩] 16 = some picked ∧
      picked.length ≤ (16 : Int).toNat ∧
      (∀ f ∈ picked, ∃ e ∈ [(⟨List.replicate 16 0, "a", 0⟩ : Entry)], f = e.ToEntryJson) ∧
      (([(⟨List.replicate 16 0, "a", 0⟩ : Entry)].map Entry.ToEntryJson).Nodup →
        picked.Nodup) :=
  C5_sample_shape (fun _ => 0) [⟨List.replicate 16 0, "a", 0⟩] 16

/-- C8: registering `capacity + 1 = 1025` distinct identities (all valid,
pairwise distinct parses) into the empty store leaves exactly the entries of
calls 2..1025 in call order, and no stored entry carries the first call's
identity: the least-recently-inserted entry is the one evicted. -/
theorem C8_eviction_order (calls : List RegCall)
    (hlen : calls.length = 1025)
    (hvalid : ∀ c ∈ calls, validCall c)
    (hnodup : (calls.map (fun c => uuidParse c.json.Uuid)).Nodup) :
    runRegs calls = (calls.drop 1).map entryPair ∧
    (∀ c1, calls.head? = some c1 →
      ∀ e ∈ storeValues (runRegs calls), some e.uuid ≠ uuidParse c1.json.Uuid) := by
  have htext : (calls.map (fun c => c.json.Uuid)).Nodup := by
    have hmm : calls.map (fun c => uuidParse c.json.Uuid) =
        (calls.map (fun c => c.json.Uuid)).map uuidParse := by
      rw [List.map_map]
      rfl
    rw [hmm] at hnodup
    exact hnodup.of_map
  have hcap : cacheCapacity = 1024 := rfl
  have hrun : runRegs calls = (calls.drop 1).map entryPair := by
    have h := runRegsFrom_all_new calls [] (by simp [hcap]) hvalid (by simpa using htext)
    rw [runRegs, h, List.map_drop]
    simp [hlen, hcap]
  refine ⟨hrun, ?_⟩
  intro c1 hc1 e he hne
  cases calls with
  | nil => simp at hc1
  | cons c0 rest =>
    have hc0 : c1 = c0 := by
      simp only [List.head?_cons, Option.some.injEq] at hc1
      exact hc1.symm
    subst hc0
    rw [hrun] at he
    simp only [List.drop_succ_cons, List.drop_zero] at he
    rw [storeValues, List.map_map] at he
    obtain ⟨c, hc, hce⟩ := List.mem_map.mp he
    obtain ⟨hcsome, -⟩ := hvalid c (List.mem_cons_of_mem c1 hc)
    obtain ⟨uc, huc⟩ := Option.isSome_iff_exists.mp hcsome
    have heuuid : e.uuid = uc := by
      rw [← hce]
      show ((entryPair c).2).uuid = uc
      simp [entryPair, huc]
    have hsame : uuidParse c1.json.Uuid = uuidParse c.json.Uuid := by
      rw [huc, ← hne, heuuid]
    have : uuidParse c1.json.Uuid ∉ rest.map (fun x => uuidParse x.json.Uuid) := by
      have := hnodup
      simp only [List.map_cons, List.nodup_cons] at this
      exact this.1
    exact this (hsame ▸ List.mem_map_of_mem (fun x => uuidParse x.json.Uuid) hc)

/-- Hex characters decode back to their value. -/
theorem xvalue_hexDigit (d : Nat) (hd : d < 16) : xvalue (hexDigit d) = some d := by
  have h : ∀ e : Nat, e < 16 → xvalue (hexDigit e) = some e := by decide
  exact h d hd

/-- A hex pair built from two digits decodes to the byte they spell. -/
theorem xtob_hexDigit (a b : Nat) (ha : a < 16) (hb : b < 16) :
    xtob (hexDigit a) (hexDigit b) = some (a * 16 + b) := by
  simp [xtob, xvalue_hexDigit a ha, xvalue_hexDigit b hb]

/-- Canonical parsing when the four hyphens are in place, the first fourteen
hex pairs decode to zero and the last four characters are hex digits. -/
theorem parseCanonical_mk (cs : List Char) (a b c d : Nat)
    (ha : a < 16) (hb : b < 16) (hc : c < 16) (hd : d < 16)
    (h8 : cs.getD 8 ' ' = '-') (h13 : cs.getD 13 ' ' = '-')
    (h18 : cs.getD 18 ' ' = '-') (h23 : cs.getD 23 ' ' = '-')
    (z0 : pairAt cs 0 = some 0) (z2 : pairAt cs 2 = some 0) (z4 : pairAt cs 4 = some 0)
    (z6 : pairAt cs 6 = some 0) (z9 : pairAt cs 9 = some 0) (z11 : pairAt cs 11 = some 0)
    (z14 : pairAt cs 14 = some 0) (z16 : pairAt cs 16 = some 0) (z19 : pairAt cs 19 = some 0)
    (z21 : pairAt cs 21 = some 0) (z24 : pairAt cs 24 = some 0) (z26 : pairAt cs 26 = some 0)
    (z28 : pairAt cs 28 = some 0) (z30 : pairAt cs 30 = some 0)
    (h32 : cs.getD 32 ' ' = hexDigit a) (h33 : cs.getD 33 ' ' = hexDigit b)
    (h34 : cs.getD 34 ' ' = hexDigit c) (h35 : cs.getD 35 ' ' = hexDigit d) :
    parseCanonical cs =
      some [0, 0, 0, 0, 0, 0, 0, 0, 0, 0, 0, 0, 0, 0, a * 16 + b, c * 16 + d] := by
  have p32 : pairAt cs 32 = some (a * 16 + b) := by
    rw [pairAt]
    have h33x : cs.getD (32 + 1) ' ' = hexDigit b := h33
    rw [h32, h33x]
    exact xtob_hexDigit a b ha hb
  have p34 : pairAt cs 34 = some (c * 16 + d) := by
    rw [pairAt]
    have h35x : cs.getD (34 + 1) ' ' = hexDigit d := h35
    rw [h34, h35x]
    exact xtob_hexDigit c d hc hd
  rw [parseCanonical, if_pos ⟨h8, h13, h18, h23⟩]
  simp [pairsAt, z0, z2, z4, z6, z9, z11, z14, z16, z19, z21, z24, z26, z28, z30, p32, p34]

/-- The last four hex characters of a generated identity text. -/
def mkHex4 (n : Nat) : List Char :=
  [hexDigit (n / 4096 % 16), hexDigit (n / 256 % 16), hexDigit (n / 16 % 16), hexDigit (n % 16)]

/-- A canonical identity text whose last four hex digits spell `n`. -/
def mkUuidText (n : Nat) : String :=
  String.mk ("00000000-0000-0000-0000-00000000".data ++ mkHex4 n)

/-- The registration call of the `n`-th generated identity. -/
def mkCall (n : Nat) : RegCall :=
  ⟨⟨mkUuidText n, "a"⟩, fun _ => 0, n⟩

/-- 1025 registration calls with pairwise distinct identities. -/
def calls1025 : List RegCall :=
  (List.range 1025).map mkCall

/-- Generated identity texts parse to the expected 16 bytes. -/
theorem uuidParse_mkUuidText (n : Nat) :
    uuidParse (mkUuidText n) = some [0, 0, 0, 0, 0, 0, 0, 0, 0, 0, 0, 0, 0, 0,
      n / 4096 % 16 * 16 + n / 256 % 16, n / 16 % 16 * 16 + n % 16] := by
  have h1 : n / 4096 % 16 < 16 := Nat.mod_lt _ (by omega)
  have h2 : n / 256 % 16 < 16 := Nat.mod_lt _ (by omega)
  have h3 : n / 16 % 16 < 16 := Nat.mod_lt _ (by omega)
  have h4 : n % 16 < 16 := Nat.mod_lt _ (by omega)
  have hlen : (mkUuidText n).data.length = 36 := rfl
  rw [uuidParse]
  rw [if_pos hlen]
  exact parseCanonical_mk (mkUuidText n).data _ _ _ _ h1 h2 h3 h4
    rfl rfl rfl rfl rfl rfl rfl rfl rfl rfl rfl rfl rfl rfl rfl rfl rfl rfl rfl rfl rfl rfl

/-- The generated call list has exactly 1025 elements. -/
theorem calls1025_length : calls1025.length = 1025 := by
  rw [calls1025, List.length_map, List.length_range]

/-- Every generated call is valid. -/
theorem calls1025_valid : ∀ c ∈ calls1025, validCall c := by
  intro c hc
  rw [calls1025] at hc
  obtain ⟨n, hn, rfl⟩ := List.mem_map.mp hc
  constructor
  · show (uuidParse (mkUuidText n)).isSome
    rw [uuidParse_mkUuidText n]
    rfl
  · exact Nat.le_refl 1

/-- The generated identities parse to pairwise distinct byte lists. -/
theorem calls1025_parse_nodup :
    (calls1025.map (fun c => uuidParse c.json.Uuid)).Nodup := by
  have hmm : calls1025.map (fun c => uuidParse c.json.Uuid) =
      (List.range 1025).map (fun n => some ([0, 0, 0, 0, 0, 0, 0, 0, 0, 0, 0, 0, 0, 0,
        n / 4096 % 16 * 16 + n / 256 % 16, n / 16 % 16 * 16 + n % 16] : List Nat)) := by
    rw [calls1025, List.map_map]
    refine List.map_congr_left ?_
    intro n hn
    show uuidParse (mkUuidText n) = _
    exact uuidParse_mkUuidText n
  rw [hmm]
  refine List.Nodup.map_on ?_ (List.nodup_range 1025)
  intro m hm n hn heq
  have hm2 : m < 1025 := List.mem_range.mp hm
  have hn2 : n < 1025 := List.mem_range.mp hn
  simp only [Option.some.injEq, List.cons.injEq, and_true, true_and] at heq
  have hdivm : m / 16 / 16 = m / 256 := by
    have h : (256 : Nat) = 16 * 16 := rfl
    rw [h, Nat.div_div_eq_div_mul]
  have hdivn : n / 16 / 16 = n / 256 := by
    have h : (256 : Nat) = 16 * 16 := rfl
    rw [h, Nat.div_div_eq_div_mul]
  omega

/-- Witness for C8: the 1025 concrete distinct registrations. -/
theorem C8_eviction_order_witness :
    runRegs calls1025 = (calls1025.drop 1).map entryPair ∧
    (∀ c1, calls1025.head? = some c1 →
      ∀ e ∈ storeValues (runRegs calls1025), some e.uuid ≠ uuidParse c1.json.Uuid) :=
  C8_eviction_order calls1025 calls1025_length calls1025_valid calls1025_parse_nodup

end Seven
